import Mathlib

/-!
Verification of the uniprot_etl pipeline against its specification.

The definitions below are a shallow embedding of the Rust sources:
`src/pipeline/mapper.rs`, `src/pipeline/transformer.rs`,
`src/pipeline/batcher.rs`, `src/pipeline/builders.rs`,
`src/pipeline/builders/ptm.rs`, `src/pipeline/scratch.rs`,
`src/pipeline/parser.rs` and `src/fasta.rs`.

Modelling conventions:
- Rust `i32` coordinates become `Int` (values come from small XML coordinates,
  no overflow is reachable on the studied paths).
- Rust `&str`/`String` become `String`; sequences are indexed per character,
  which agrees with the byte indexing of the source on the ASCII amino-acid
  alphabet the pipeline manipulates.
- Rust `HashMap` lookups become first-match lookup in an association list,
  which has the same `get` semantics once inserts prepend (shadowing).
- `f32` confidence scores become `ℚ`; the four constants 1.0 / 0.8 / 0.4 / 0.1
  are only ever compared with each other and the order is preserved exactly.
- Fallible Rust functions returning `Result` become `Except`.
-/

namespace UniprotEtl

/-- Splitting a character list at every separator, keeping empty pieces:
the semantics of Rust `str::split` for a one-character pattern. -/
def split_chars (p : Char → Bool) : List Char → List (List Char)
  | [] => [[]]
  | c :: rest =>
    if p c then [] :: split_chars p rest
    else
      match split_chars p rest with
      | [] => [[c]]
      | t :: ts => (c :: t) :: ts

/-- Whitespace trim of both ends, Rust `str::trim` (kernel-reducible
counterpart of `String.trim`). -/
def str_trim (s : String) : String :=
  ⟨((s.toList.dropWhile Char.isWhitespace).reverse.dropWhile Char.isWhitespace).reverse⟩

/-- Rust `str::to_ascii_lowercase` / the ASCII case of `String.toLower`. -/
def str_to_lower (s : String) : String :=
  ⟨s.toList.map Char.toLower⟩

/-- Rust `str::starts_with` (kernel-reducible `String.startsWith`). -/
def str_starts_with (s pre : String) : Bool :=
  pre.toList.isPrefixOf s.toList

/-- Rust `str::contains` for a one-character pattern. -/
def str_contains_char (s : String) (c : Char) : Bool :=
  s.toList.contains c

/-- First token of `s` under Rust `split_whitespace().next().unwrap_or(s)`:
the first maximal run of non-whitespace characters, or `s` itself when the
string contains no such run. -/
def first_whitespace_token (s : String) : String :=
  match (split_chars Char.isWhitespace s.toList).filter (fun t => t ≠ []) with
  | [] => s
  | t :: _ => ⟨t⟩

/-- Character-list substring search: does `needle` occur contiguously? -/
def substr_occurs (needle : List Char) : List Char → Bool
  | [] => needle.isEmpty
  | c :: rest => needle.isPrefixOf (c :: rest) || substr_occurs needle rest

/-- Substring containment test, Rust `str::contains` for an ASCII needle. -/
def contains_substr (haystack needle : String) : Bool :=
  substr_occurs needle.toList haystack.toList

/-! ## Coordinate mapper (`src/pipeline/mapper.rs`) -/

/-- Failure modes of the coordinate mapper (`enum MapFailure`). -/
inductive MapFailure where
  | VspDeletionEvent
  | PtmOutOfBounds
  | VspUnresolvable
deriving Repr, DecidableEq

/-- A splice-variant edit (`struct VspEdit`). -/
structure VspEdit where
  begin_1based : Int
  end_1based : Int
  delta : Int
  is_deletion : Bool
deriving Repr, DecidableEq

/-- `struct CoordinateMapper`: a vector of VSP edits sorted by begin. -/
structure CoordinateMapper where
  edits : List VspEdit
deriving Repr, DecidableEq

/-- The valid amino-acid letters accepted by `cleaned_aa_len`
(standard 20 plus U, O, X, B, Z, J, both cases). -/
def valid_aa_chars : List Char :=
  "ACDEFGHIKLMNPQRSTUVWXYZBJOacdefghiklmnpqrstuvwxyzbjo".toList

/-- `cleaned_aa_len`: amino-acid count of a `<variation>` text, or 0 for
descriptive notes (whitespace, digits, or non-AA characters). -/
def cleaned_aa_len (text : String) : Nat :=
  let trimmed := str_trim text
  if trimmed = "" then 0
  else if str_contains_char trimmed ' ' || trimmed.toList.any Char.isDigit then 0
  else if trimmed.toList.all (fun b => valid_aa_chars.contains b) then trimmed.length
  else 0

/-- `is_missing_variant`: either text contains "missing" case-insensitively. -/
def is_missing_variant (variation description : String) : Bool :=
  let v := str_to_lower variation
  let d := str_to_lower description
  contains_substr v "missing" || contains_substr d "missing"

/-! ## Parsed entry data model (`src/pipeline/scratch.rs`) -/

/-- One parsed `<feature>` (`struct FeatureScratch`); `end_` embeds the Rust
field `end`, which is a reserved word in Lean. -/
structure FeatureScratch where
  id : Option String := none
  feature_type : String := ""
  description : Option String := none
  start : Option Int := none
  end_ : Option Int := none
  original : Option String := none
  variation : Option String := none
  evidence_keys : List String := []
deriving Repr, DecidableEq

/-- One parsed `<isoform>` (`struct IsoformScratch`); `isoform_sequence`
holds the `<sequence ref=…>` attribute kept for sidecar lookup. -/
structure IsoformScratch where
  isoform_id : String := ""
  isoform_sequence : Option String := none
  vsp_ids : List String := []
  isoform_note : Option String := none
deriving Repr, DecidableEq

/-- The finalized per-entry record (the fields of `EntryScratch` /
`ParsedEntry` consumed by the claims under study). `features` is the generic
feature list; `evidence_map` is the entry-scoped key → ECO-code map. -/
structure ParsedEntry where
  accession : String := ""
  parent_id : String := ""
  sequence : String := ""
  existence : Int := 0
  evidence_map : List (String × String) := []
  features : List FeatureScratch := []
  isoforms : List IsoformScratch := []
deriving Repr, DecidableEq

/-- The body of the `filterMap` in `CoordinateMapper::from_entry_for_vsp_ids`:
turns one feature into at most one `VspEdit`, mirroring every `continue`. -/
def vsp_edit_of_feature (vsp_ids : List String) (feat : FeatureScratch) : Option VspEdit :=
  if feat.feature_type ≠ "splice variant" ∧ feat.feature_type ≠ "variant sequence" then none
  else
    match feat.id with
    | none => none
    | some fid =>
      if ¬ vsp_ids.contains fid then none
      else
        match feat.start, feat.end_ with
        | some start, some end_ =>
          if start ≤ 0 ∨ end_ ≤ 0 ∨ end_ < start then none
          else
            let description := feat.description.getD ""
            let variation := feat.variation.getD ""
            let original_len := (end_ - start) + 1
            if original_len ≤ 0 then none
            else
              let variation_len : Int := (cleaned_aa_len variation : Int)
              let is_missing :=
                if feat.feature_type = "splice variant" ∧ variation_len ≤ 0 then true
                else is_missing_variant variation description
              let new_len : Int := if is_missing then 0 else variation_len
              if ¬ is_missing = true ∧ new_len ≤ 0 then none
              else some ⟨start, end_, new_len - original_len, is_missing ∧ new_len = 0⟩
        | _, _ => none

/-- Stable insertion by `begin_1based` (the sort key of `sort_by_key`). -/
def ordered_insert_edit (e : VspEdit) : List VspEdit → List VspEdit
  | [] => [e]
  | x :: xs =>
    if e.begin_1based ≤ x.begin_1based then e :: x :: xs
    else x :: ordered_insert_edit e xs

/-- Stable sort by `begin_1based`, the Lean counterpart of
`edits.sort_by_key(|e| e.begin_1based)`. -/
def sort_edits_by_begin : List VspEdit → List VspEdit
  | [] => []
  | x :: xs => ordered_insert_edit x (sort_edits_by_begin xs)

/-- `CoordinateMapper::from_entry_for_vsp_ids`: builds the scoped edit list
from the entry's splice-variant features and sorts it by begin. -/
def from_entry_for_vsp_ids (scratch : ParsedEntry) (vsp_ids : List String) : CoordinateMapper :=
  if vsp_ids = [] then ⟨[]⟩
  else ⟨sort_edits_by_begin (scratch.features.filterMap (vsp_edit_of_feature vsp_ids))⟩

/-- `CoordinateMapper::from_entry`: the identity mapper. -/
def from_entry (scratch : ParsedEntry) : CoordinateMapper :=
  from_entry_for_vsp_ids scratch []

/-- The final `mapped = pos + shift` computation with its `<= 0` guard. -/
def finish_map (pos shift : Int) : Except MapFailure Int :=
  let mapped := pos + shift
  if mapped ≤ 0 then .error .PtmOutOfBounds else .ok mapped

/-- The edit-traversal loop of `map_point_1based`; the `break` of the source
returns the same `pos + shift` computation as loop exhaustion does. -/
def map_go (pos : Int) : Int → List VspEdit → Except MapFailure Int
  | shift, [] => finish_map pos shift
  | shift, e :: es =>
    if pos < e.begin_1based then finish_map pos shift
    else if pos > e.end_1based then map_go pos (shift + e.delta) es
    else if e.is_deletion then .error .VspDeletionEvent
    else if e.delta = 0 then finish_map pos shift
    else if pos = e.begin_1based then
      let mapped := e.begin_1based + shift
      if mapped ≤ 0 then .error .PtmOutOfBounds else .ok mapped
    else .error .VspUnresolvable

/-- `CoordinateMapper::map_point_1based`. -/
def map_point_1based (m : CoordinateMapper) (original_pos_1based : Int) :
    Except MapFailure Int :=
  if original_pos_1based ≤ 0 then .error .VspUnresolvable
  else map_go original_pos_1based 0 m.edits

/-! ## Evidence scoring (`EntryScratch::max_confidence_for_evidence`) -/

/-- The ECO-code score table of the `match` in `max_confidence_for_evidence`.
The Rust `f32` constants are embedded as the order-isomorphic rationals. -/
def eco_score (eco : String) : ℚ :=
  if eco = "ECO:0000269" then 1
  else if eco = "ECO:0007744" then 8/10
  else if eco = "ECO:0000250" then 4/10
  else if eco = "ECO:0000255" then 1/10
  else 1/10

/-- The key loop of `max_confidence_for_evidence`: keys that do not resolve
are skipped, resolved scores raise `best`, and the loop breaks once `best`
reaches 1.0 (the `(best - 1.0).abs() < EPSILON` test). -/
def max_confidence_go (evidence_map : List (String × String)) (best : ℚ) :
    List String → ℚ
  | [] => best
  | key :: keys =>
    match evidence_map.lookup key with
    | none => max_confidence_go evidence_map best keys
    | some eco =>
      let score := eco_score eco
      if score > best then
        if score = 1 then score else max_confidence_go evidence_map score keys
      else max_confidence_go evidence_map best keys

/-- `EntryScratch::max_confidence_for_evidence`. -/
def max_confidence_for_evidence (entry : ParsedEntry) (keys : List String) : ℚ :=
  if keys = [] then 1/10
  else max_confidence_go entry.evidence_map (1/10) keys

/-- The per-key score of the claim's reading: resolve the key in the entry's
evidence map and score the ECO code, a key that does not resolve scores 0.1. -/
def score_of_key (evidence_map : List (String × String)) (key : String) : ℚ :=
  match evidence_map.lookup key with
  | some eco => eco_score eco
  | none => 1/10

/-- The claim's reading of the confidence rule, written from the spec's words:
the maximum over the feature's evidence keys of the per-key score, with an
empty key list yielding the 0.1 baseline. -/
def spec_confidence_max (entry : ParsedEntry) (keys : List String) : ℚ :=
  (keys.map (score_of_key entry.evidence_map)).foldr max (1/10)

/-! ## Existence mapping (`src/pipeline/parser.rs` / `builders.rs`) -/

/-- `map_existence`: UniProt `proteinExistence type` string to i8 code. -/
def map_existence (t : String) : Int :=
  if t = "evidence at protein level" then 1
  else if t = "evidence at transcript level" then 2
  else if t = "inferred from homology" then 3
  else if t = "predicted" then 4
  else if t = "uncertain" then 5
  else 0

/-- The existence column append of `EntryBuilders::append_row`:
`existence == 0` becomes null, anything else is stored as itself. -/
def serialize_existence (existence : Int) : Option Int :=
  if existence = 0 then none else some existence

/-! ## Transformer (`src/pipeline/transformer.rs`) -/

/-- `struct TransformedRow` (minus the shared back-pointer to the entry). -/
structure TransformedRow where
  row_id : String
  parent_id : String
  sequence : String
  mapper : CoordinateMapper
deriving Repr, DecidableEq

/-- The fields of one `ISOFORM_SEQ_MISSING` diagnostic line. -/
structure IsoformSeqMissing where
  parent_id : String
  id : String
  isoform_id : String
deriving Repr, DecidableEq

/-- The fatal error surface of the transformer (`EtlError::MissingField`). -/
inductive EtlError where
  | MissingField (msg : String)
deriving Repr, DecidableEq

/-- `canonical_isoform_id`: prefer the first whitespace token of the
`<sequence ref=…>` when it looks like an isoform accession (contains `-`,
not a `VSP_…` id), otherwise the first token of the local isoform id. -/
def canonical_isoform_id (iso : IsoformScratch) : String :=
  match iso.isoform_sequence with
  | some r =>
    if ¬ str_starts_with r "VSP_" ∧ str_contains_char r '-' then first_whitespace_token r
    else first_whitespace_token iso.isoform_id
  | none => first_whitespace_token iso.isoform_id

/-- The per-isoform loop of `EntryTransformer::transform`: resolved isoforms
become rows, unresolved isoforms become `ISOFORM_SEQ_MISSING` diagnostics. -/
def transform_isoforms (entry : ParsedEntry) (sidecar : List (String × String)) :
    List IsoformScratch → List TransformedRow × List IsoformSeqMissing
  | [] => ([], [])
  | iso :: rest =>
    let isoform_id := canonical_isoform_id iso
    let tail := transform_isoforms entry sidecar rest
    match sidecar.lookup isoform_id with
    | none =>
      (tail.1, ⟨entry.parent_id, entry.accession, isoform_id⟩ :: tail.2)
    | some isoform_sequence =>
      (⟨isoform_id, entry.parent_id, isoform_sequence,
        from_entry_for_vsp_ids entry iso.vsp_ids⟩ :: tail.1, tail.2)

/-- `EntryTransformer::transform`: one canonical row when the entry has no
isoforms; otherwise a sidecar is required and each isoform either yields a row
or a diagnostic. The same row policy is implemented by `Batcher::add_entry`. -/
def transform (sidecar_fasta : Option (List (String × String))) (entry : ParsedEntry) :
    Except EtlError (List TransformedRow × List IsoformSeqMissing) :=
  if entry.isoforms = [] then
    .ok ([⟨entry.accession, entry.accession, entry.sequence, from_entry entry⟩], [])
  else
    match sidecar_fasta with
    | none => .error (.MissingField "fasta_sidecar_path is required when isoforms exist")
    | some sidecar => .ok (transform_isoforms entry sidecar entry.isoforms)

/-- Rows of a transform result (empty on the fatal-error path). -/
def transform_rows (r : Except EtlError (List TransformedRow × List IsoformSeqMissing)) :
    List TransformedRow :=
  match r with
  | .ok (rows, _) => rows
  | .error _ => []

/-- Diagnostics of a transform result (empty on the fatal-error path). -/
def transform_diags (r : Except EtlError (List TransformedRow × List IsoformSeqMissing)) :
    List IsoformSeqMissing :=
  match r with
  | .ok (_, diags) => diags
  | .error _ => []

/-- The row an isoform contributes when its sequence resolves, `none` when the
sidecar lacks its canonical isoform id. -/
def resolved_row (entry : ParsedEntry) (sidecar : List (String × String))
    (iso : IsoformScratch) : Option TransformedRow :=
  (sidecar.lookup (canonical_isoform_id iso)).map
    (fun isoform_sequence =>
      ⟨canonical_isoform_id iso, entry.parent_id, isoform_sequence,
        from_entry_for_vsp_ids entry iso.vsp_ids⟩)

/-- The diagnostic an isoform contributes when its sequence is missing. -/
def missing_diag (entry : ParsedEntry) (sidecar : List (String × String))
    (iso : IsoformScratch) : Option IsoformSeqMissing :=
  match sidecar.lookup (canonical_isoform_id iso) with
  | none => some ⟨entry.parent_id, entry.accession, canonical_isoform_id iso⟩
  | some _ => none

/-! ## FASTA sidecar loader (`src/fasta.rs`) -/

/-- `parse_fasta_key`: prefer the accession of a UniProt pipe header,
otherwise the first whitespace token. -/
def parse_fasta_key (header : String) : String :=
  let first_token := first_whitespace_token header
  match split_chars (fun c => c = '|') first_token.toList with
  | _db :: acc :: _rest :: _ => if acc ≠ [] then ⟨acc⟩ else first_token
  | _ => first_token

/-- HashMap insert modelled by shadowing prepend (same `get` behavior). -/
def hashmap_insert (map : List (String × String)) (key value : String) :
    List (String × String) :=
  (key, value) :: map

/-- The line loop of `load_fasta_map` over already-split lines. -/
def load_fasta_go (current_key : Option String) (current_seq : String)
    (map : List (String × String)) : List String → List (String × String)
  | [] =>
    match current_key with
    | some key => hashmap_insert map key current_seq
    | none => map
  | line :: rest =>
    if str_starts_with line ">" then
      let flushed :=
        match current_key with
        | some key => hashmap_insert map key current_seq
        | none => map
      let header := str_trim ⟨line.toList.dropWhile (fun c => c = '>')⟩
      load_fasta_go (some (parse_fasta_key header)) "" flushed rest
    else
      let part := str_trim line
      load_fasta_go current_key (if part = "" then current_seq else current_seq ++ part)
        map rest

/-- `load_fasta_map`, on the list of lines of the FASTA file. -/
def load_fasta_map (lines : List String) : List (String × String) :=
  load_fasta_go none "" [] lines

/-! ## PTM site aggregation (`src/pipeline/builders.rs` / `builders/ptm.rs`) -/

/-- `EntryScratch::canonical_aa_at_1based`. -/
def canonical_aa_at_1based (entry : ParsedEntry) (pos_1based : Int) : Option Char :=
  if pos_1based ≤ 0 then none
  else entry.sequence.toList.get? (pos_1based.toNat - 1)

/-- `classify_mod_type`: 1 for phospho modified residues, 2 for O-GlcNAc
glycosylation sites, 0 otherwise. -/
def classify_mod_type (feature_type_lower : String) (description : Option String) : Int :=
  let desc := str_to_lower (description.getD "")
  if feature_type_lower = "modified residue" ∧ contains_substr desc "phospho" then 1
  else if feature_type_lower = "glycosylation site" ∧
      contains_substr desc "n-acetylglucosamine" then 2
  else 0

/-- One aggregated PTM site: mapped 1-based index, verified residue, and the
`(mod_type, confidence_score)` modification list. -/
structure PtmSite where
  site_index : Int
  site_aa : Char
  modifications : List (Int × ℚ)
deriving Repr, DecidableEq

/-- `BTreeMap::entry(k).or_insert(…)` followed by a push: insert into the
key-sorted site list, appending to the modification list on an existing key. -/
def sites_insert (k : Int) (aa : Char) (m : Int × ℚ) :
    List PtmSite → List PtmSite
  | [] => [⟨k, aa, [m]⟩]
  | s :: rest =>
    if k < s.site_index then ⟨k, aa, [m]⟩ :: s :: rest
    else if k = s.site_index then ⟨s.site_index, s.site_aa, s.modifications ++ [m]⟩ :: rest
    else s :: sites_insert k aa m rest

/-- The per-feature body of `append_ptm_sites`: point-PTM selection, the
three-step verification, and the grouped insert. Every `continue` of the
source becomes returning `sites` unchanged. -/
def ptm_step (entry : ParsedEntry) (row : TransformedRow)
    (sites : List PtmSite) (feat : FeatureScratch) : List PtmSite :=
  let ft := str_to_lower feat.feature_type
  if ¬ (ft = "glycosylation site" ∨ ft = "modified residue" ∨ ft = "cross-link") then sites
  else
    match feat.start, feat.end_ with
    | some start, some end_ =>
      if start ≤ 0 ∨ end_ ≤ 0 ∨ start ≠ end_ then sites
      else
        match canonical_aa_at_1based entry start with
        | none => sites
        | some original_aa =>
          let mapped? : Option Int :=
            if row.row_id = row.parent_id then some start
            else (map_point_1based row.mapper start).toOption
          match mapped? with
          | none => sites
          | some mapped_1based =>
            -- Both mapping paths return positive positions; a negative value
            -- would be cast to a huge usize by the source and rejected by the
            -- same bounds check this branch models.
            if mapped_1based ≤ 0 then sites
            else
              let isoform_chars := row.sequence.toList
              let mapped_idx0 := mapped_1based.toNat - 1
              match isoform_chars.get? mapped_idx0 with
              | none => sites
              | some isoform_aa =>
                if isoform_aa ≠ original_aa then sites
                else
                  sites_insert mapped_1based original_aa
                    (classify_mod_type ft feat.description,
                     max_confidence_for_evidence entry feat.evidence_keys) sites
    | _, _ => sites

/-- `append_ptm_sites` as a pure function: the key-ordered site list that the
builder serializes for one row (BTreeMap iteration is ascending by key). -/
def ptm_sites_for_row (entry : ParsedEntry) (row : TransformedRow) : List PtmSite :=
  entry.features.foldl (ptm_step entry row) []

/-! ## Interaction comment handling (`src/pipeline/parser.rs`) -/

/-- `struct InteractionScratch`. -/
structure InteractionScratch where
  interactant_id_1 : Option String := none
  interactant_id_2 : Option String := none
  evidence_keys : List String := []
deriving Repr, DecidableEq

/-- The UniProtKB `<dbReference id=…>` handler inside an interaction comment
(`handle_empty_tag`): fill the first free partner slot, or flush the full pair
and restart with the new partner, keeping the evidence keys. -/
def add_interaction_partner (st : InteractionScratch × List InteractionScratch)
    (id : String) : InteractionScratch × List InteractionScratch :=
  let (cur, acc) := st
  match cur.interactant_id_1 with
  | none => ({ cur with interactant_id_1 := some id }, acc)
  | some _ =>
    match cur.interactant_id_2 with
    | none => ({ cur with interactant_id_2 := some id }, acc)
    | some _ =>
      (⟨some id, none, cur.evidence_keys⟩, acc ++ [cur])

/-- The `</comment>` handler for interactions (`handle_end_tag`): push the
current record when it holds at least one partner. -/
def close_interaction_comment (st : InteractionScratch × List InteractionScratch) :
    List InteractionScratch :=
  let (cur, acc) := st
  if cur.interactant_id_1.isSome || cur.interactant_id_2.isSome then acc ++ [cur]
  else acc

/-- Processing of one interaction comment listing the given UniProtKB
partners in document order. -/
def process_interaction_comment (evidence_keys : List String)
    (partners : List String) : List InteractionScratch :=
  close_interaction_comment
    (partners.foldl add_interaction_partner (⟨none, none, evidence_keys⟩, []))

/-- The partner ids recorded in one emitted interaction record. -/
def partners_of (r : InteractionScratch) : List String :=
  r.interactant_id_1.toList ++ r.interactant_id_2.toList

/-- Consecutive pairing of a partner list: the record shapes the spec expects
one interaction comment to flush. -/
def chunk_pairs : List String → List (List String)
  | [] => []
  | [a] => [[a]]
  | a :: b :: rest => [a, b] :: chunk_pairs rest

/-! ## Helper lemmas -/

instance {ε α : Type} [DecidableEq ε] [DecidableEq α] : DecidableEq (Except ε α) :=
  fun x y =>
    match x, y with
    | .ok a, .ok b => if h : a = b then .isTrue (by rw [h]) else .isFalse (by simp [h])
    | .error a, .error b => if h : a = b then .isTrue (by rw [h]) else .isFalse (by simp [h])
    | .ok _, .error _ => .isFalse (by simp)
    | .error _, .ok _ => .isFalse (by simp)

theorem finish_map_ok_ge_one {pos shift r : Int} (h : finish_map pos shift = .ok r) :
    1 ≤ r := by
  unfold finish_map at h
  by_cases hc : pos + shift ≤ 0
  · simp [hc] at h
  · simp [hc] at h
    omega

theorem map_go_ok_ge_one (pos : Int) :
    ∀ (es : List VspEdit) (shift r : Int), map_go pos shift es = .ok r → 1 ≤ r
  | [], shift, r, h => finish_map_ok_ge_one h
  | e :: es, shift, r, h => by
    unfold map_go at h
    split at h
    · exact finish_map_ok_ge_one h
    · split at h
      · exact map_go_ok_ge_one pos es (shift + e.delta) r h
      · split at h
        · exact absurd h (by simp)
        · split at h
          · exact finish_map_ok_ge_one h
          · split at h
            · by_cases hc : e.begin_1based + shift ≤ 0
              · simp [hc] at h
              · simp [hc] at h
                omega
            · exact absurd h (by simp)

/-- C10 — safety of the mapper: a successful `map_point_1based` result is
always a strictly positive 1-based position; non-positive inputs are rejected
with `VspUnresolvable` and every would-be non-positive output is rejected
with `PtmOutOfBounds` before being returned. -/
theorem map_point_ok_positive (m : CoordinateMapper) (pos r : Int)
    (h : map_point_1based m pos = .ok r) : 1 ≤ r := by
  unfold map_point_1based at h
  split at h
  · exact absurd h (by simp)
  · exact map_go_ok_ge_one pos m.edits 0 r h

/-- Witness for C10 at the identity mapper and position 3. -/
theorem map_point_ok_positive_witness :
    map_point_1based ⟨[]⟩ 3 = .ok 3 ∧ (1 : Int) ≤ 3 :=
  ⟨by decide, map_point_ok_positive ⟨[]⟩ 3 3 (by decide)⟩

theorem eco_score_ge : ∀ eco, 1/10 ≤ eco_score eco := by
  intro eco
  unfold eco_score
  split_ifs <;> norm_num

theorem eco_score_le : ∀ eco, eco_score eco ≤ 1 := by
  intro eco
  unfold eco_score
  split_ifs <;> norm_num

theorem score_of_key_ge (em : List (String × String)) (key : String) :
    1/10 ≤ score_of_key em key := by
  unfold score_of_key
  cases em.lookup key with
  | none => norm_num
  | some eco => exact eco_score_ge eco

theorem score_of_key_le (em : List (String × String)) (key : String) :
    score_of_key em key ≤ 1 := by
  unfold score_of_key
  cases em.lookup key with
  | none => norm_num
  | some eco => exact eco_score_le eco

theorem le_foldr_max (b : ℚ) : ∀ l : List ℚ, b ≤ l.foldr max b
  | [] => le_refl b
  | a :: l => le_trans (le_foldr_max b l) (le_max_right a _)

theorem foldr_max_le (b c : ℚ) (hb : b ≤ c) :
    ∀ l : List ℚ, (∀ x ∈ l, x ≤ c) → l.foldr max b ≤ c
  | [], _ => hb
  | a :: l, h => by
    simp only [List.foldr_cons, max_le_iff]
    exact ⟨h a (by simp), foldr_max_le b c hb l (fun x hx => h x (by simp [hx]))⟩

theorem foldr_max_change_base (b c : ℚ) (hcb : c ≤ b) :
    ∀ l : List ℚ, l.foldr max b = max b (l.foldr max c)
  | [] => (max_eq_left hcb).symm
  | a :: l => by
    simp only [List.foldr_cons, foldr_max_change_base b c hcb l]
    rw [max_left_comm]

theorem max_confidence_go_eq (em : List (String × String)) :
    ∀ (keys : List String) (best : ℚ), 1/10 ≤ best → best ≤ 1 →
      max_confidence_go em best keys = (keys.map (score_of_key em)).foldr max best
  | [], best, _, _ => rfl
  | key :: keys, best, hge, hle => by
    simp only [max_confidence_go, List.map_cons, List.foldr_cons]
    cases hk : em.lookup key with
    | none =>
      rw [max_confidence_go_eq em keys best hge hle]
      have h1 : score_of_key em key = 1/10 := by simp [score_of_key, hk]
      rw [h1, max_eq_right (le_trans hge (le_foldr_max best _))]
    | some eco =>
      have hsk : score_of_key em key = eco_score eco := by simp [score_of_key, hk]
      dsimp only
      by_cases hgt : eco_score eco > best
      · rw [if_pos hgt]
        by_cases hone : eco_score eco = 1
        · rw [if_pos hone, hsk, hone]
          rw [max_eq_left (foldr_max_le best 1 hle _
            (fun x hx => by
              obtain ⟨k, _, rfl⟩ := List.mem_map.mp hx
              exact score_of_key_le em k))]
        · rw [if_neg hone]
          rw [max_confidence_go_eq em keys (eco_score eco) (eco_score_ge eco) (eco_score_le eco)]
          rw [hsk, foldr_max_change_base (eco_score eco) best (le_of_lt hgt)]
      · rw [if_neg hgt]
        rw [max_confidence_go_eq em keys best hge hle, hsk]
        rw [max_eq_right (le_trans (not_lt.mp hgt) (le_foldr_max best _))]

/-- C6 — for every feature's evidence key list, the computed
`confidence_score` equals the maximum over the keys of the per-key score
(ECO:0000269→1.0, ECO:0007744→0.8, ECO:0000250→0.4, ECO:0000255→0.1, other
resolved codes→0.1, unresolved keys→0.1), with 0.1 for an empty key list. -/
theorem max_confidence_eq_spec_max (entry : ParsedEntry) (keys : List String) :
    max_confidence_for_evidence entry keys = spec_confidence_max entry keys := by
  unfold max_confidence_for_evidence spec_confidence_max
  by_cases hk : keys = []
  · simp [hk]
  · rw [if_neg hk, max_confidence_go_eq entry.evidence_map keys (1/10) (le_refl _) (by norm_num)]

/-- C7 — the `proteinExistence type` attribute maps to the existence code by
the five-entry table with 0 for any other string, and the existence column
serializes 0 as null and 1..=5 as themselves. -/
theorem existence_mapping_spec :
    map_existence "evidence at protein level" = 1 ∧
    map_existence "evidence at transcript level" = 2 ∧
    map_existence "inferred from homology" = 3 ∧
    map_existence "predicted" = 4 ∧
    map_existence "uncertain" = 5 ∧
    (∀ t : String, t ≠ "evidence at protein level" → t ≠ "evidence at transcript level" →
      t ≠ "inferred from homology" → t ≠ "predicted" → t ≠ "uncertain" →
      map_existence t = 0) ∧
    serialize_existence 0 = none ∧
    (∀ existence : Int, 1 ≤ existence → existence ≤ 5 →
      serialize_existence existence = some existence) := by
  refine ⟨by decide, by decide, by decide, by decide, by decide, ?_, rfl, ?_⟩
  · intro t h1 h2 h3 h4 h5
    unfold map_existence
    rw [if_neg h1, if_neg h2, if_neg h3, if_neg h4, if_neg h5]
  · intro existence h1 _
    unfold serialize_existence
    rw [if_neg (by omega)]

/-- Witness for C7: an unrecognized string maps to 0, and existence 3 is
serialized as itself. -/
theorem existence_mapping_spec_witness :
    map_existence "hello" = 0 ∧ serialize_existence 3 = some 3 :=
  ⟨existence_mapping_spec.2.2.2.2.2.1 "hello" (by decide) (by decide) (by decide)
      (by decide) (by decide),
   existence_mapping_spec.2.2.2.2.2.2.2 3 (by decide) (by decide)⟩

/-- C9 — sidecar FASTA header key extraction round-trips both header styles:
the UniProt pipe header yields the accession between the pipes, and a bare
header yields its first whitespace token; `load_fasta_map` stores sequences
under exactly these keys. -/
theorem fasta_key_round_trip :
    parse_fasta_key "sp|P04637-2|TP53_HUMAN" = "P04637-2" ∧
    parse_fasta_key "Q9TEST-1 some desc" = "Q9TEST-1" ∧
    (load_fasta_map [">sp|P04637-2|TP53_HUMAN", "MSE", "Q"]).lookup "P04637-2"
      = some "MSEQ" ∧
    (load_fasta_map [">Q9TEST-1 some desc", "MT", "AK"]).lookup "Q9TEST-1"
      = some "MTAK" := by
  decide

theorem chunk_pairs_length_le :
    ∀ (ps : List String) (l : List String), l ∈ chunk_pairs ps → l.length ≤ 2
  | [], l, h => absurd h (by simp [chunk_pairs])
  | [a], l, h => by
    simp only [chunk_pairs, List.mem_singleton] at h
    simp [h]
  | a :: b :: rest, l, h => by
    simp only [chunk_pairs, List.mem_cons] at h
    rcases h with h | h
    · simp [h]
    · exact chunk_pairs_length_le rest l h

theorem interaction_comment_chunks (ev : List String) :
    ∀ (ps : List String) (acc : List InteractionScratch),
      (close_interaction_comment (ps.foldl add_interaction_partner
          (⟨none, none, ev⟩, acc))).map partners_of
        = acc.map partners_of ++ chunk_pairs ps
  | [], acc => by
    simp [close_interaction_comment, chunk_pairs]
  | [a], acc => by
    simp [add_interaction_partner, close_interaction_comment, chunk_pairs, partners_of]
  | [a, b], acc => by
    simp [add_interaction_partner, close_interaction_comment, chunk_pairs, partners_of]
  | a :: b :: c :: rest, acc => by
    have ih := interaction_comment_chunks ev (c :: rest) (acc ++ [⟨some a, some b, ev⟩])
    simp only [List.foldl_cons, add_interaction_partner] at ih ⊢
    rw [ih]
    simp [chunk_pairs, partners_of]

/-- C8 — each interaction comment emits records holding at most two UniProtKB
partners: the partner lists of the emitted records are exactly the consecutive
pairs of the partners seen in document order (a third partner flushes the
current pair and starts a new record). -/
theorem interaction_records_are_pairs (ev partners : List String) :
    (process_interaction_comment ev partners).map partners_of = chunk_pairs partners ∧
    ∀ r ∈ process_interaction_comment ev partners, (partners_of r).length ≤ 2 := by
  have hmap : (process_interaction_comment ev partners).map partners_of
      = chunk_pairs partners := by
    unfold process_interaction_comment
    simpa using interaction_comment_chunks ev partners []
  refine ⟨hmap, fun r hr => ?_⟩
  exact chunk_pairs_length_le partners (partners_of r)
    (hmap ▸ List.mem_map_of_mem partners_of hr)

/-- Witness for C8 on three partners: the records are the pair (P1, P2)
followed by the singleton P3, and the flushed record holds two partners. -/
theorem interaction_records_are_pairs_witness :
    (process_interaction_comment ["E1"] ["P1", "P2", "P3"]).map partners_of
      = chunk_pairs ["P1", "P2", "P3"] ∧
    (partners_of ⟨some "P1", some "P2", ["E1"]⟩).length ≤ 2 :=
  ⟨(interaction_records_are_pairs ["E1"] ["P1", "P2", "P3"]).1,
   (interaction_records_are_pairs ["E1"] ["P1", "P2", "P3"]).2
     ⟨some "P1", some "P2", ["E1"]⟩ (by decide)⟩

theorem vsp_edit_of_feature_bounds (vsp_ids : List String) (feat : FeatureScratch)
    (e : VspEdit) (h : vsp_edit_of_feature vsp_ids feat = some e) :
    1 ≤ e.begin_1based ∧ e.begin_1based ≤ e.end_1based ∧
      -(e.end_1based - e.begin_1based + 1) ≤ e.delta := by
  unfold vsp_edit_of_feature at h
  split at h
  · exact absurd h (by simp)
  · split at h
    · exact absurd h (by simp)
    · split at h
      · exact absurd h (by simp)
      · split at h
        · split at h
          · exact absurd h (by simp)
          · dsimp only at h
            split at h
            · exact absurd h (by simp)
            · rename_i hcoord _ _
              split at h
              · -- splice variant with indeterminate variation: a full deletion
                rw [if_neg (by simp)] at h
                rw [Option.some.injEq] at h
                subst h
                refine ⟨?_, ?_, ?_⟩ <;> dsimp only <;> omega
              · -- general case: is_missing decided by the "missing" texts
                split at h
                · -- missing: new length 0
                  rename_i hmv
                  rw [if_neg (by simp [hmv])] at h
                  rw [Option.some.injEq] at h
                  subst h
                  refine ⟨?_, ?_, ?_⟩ <;> dsimp only <;> omega
                · -- not missing: new length is the cleaned variation length
                  split at h
                  · exact absurd h (by simp)
                  · rw [Option.some.injEq] at h
                    subst h
                    refine ⟨?_, ?_, ?_⟩ <;> dsimp only <;> omega
        · exact absurd h (by simp)

theorem mem_ordered_insert_edit (a e : VspEdit) :
    ∀ l : List VspEdit, a ∈ ordered_insert_edit e l ↔ a = e ∨ a ∈ l
  | [] => by simp [ordered_insert_edit]
  | x :: xs => by
    unfold ordered_insert_edit
    split
    · simp [or_comm, or_assoc, or_left_comm]
    · simp only [List.mem_cons, mem_ordered_insert_edit a e xs]
      tauto

theorem mem_sort_edits_by_begin (a : VspEdit) :
    ∀ l : List VspEdit, a ∈ sort_edits_by_begin l ↔ a ∈ l
  | [] => Iff.rfl
  | x :: xs => by
    unfold sort_edits_by_begin
    rw [mem_ordered_insert_edit, mem_sort_edits_by_begin a xs]
    simp

theorem from_entry_edits_bounds (scratch : ParsedEntry) (vsp_ids : List String) :
    ∀ e ∈ (from_entry_for_vsp_ids scratch vsp_ids).edits,
      1 ≤ e.begin_1based ∧ e.begin_1based ≤ e.end_1based ∧
        -(e.end_1based - e.begin_1based + 1) ≤ e.delta := by
  intro e he
  unfold from_entry_for_vsp_ids at he
  split at he
  · exact absurd he (by simp)
  · rw [mem_sort_edits_by_begin] at he
    obtain ⟨feat, _, hfe⟩ := List.mem_filterMap.mp he
    exact vsp_edit_of_feature_bounds vsp_ids feat e hfe

theorem map_go_interior_unresolvable (pos : Int) :
    ∀ (es : List VspEdit) (shift : Int) (e : VspEdit),
      (∀ x ∈ es, x.begin_1based ≤ x.end_1based) →
      es.Pairwise (fun a b => a.end_1based < b.begin_1based) →
      e ∈ es → e.begin_1based < pos → pos ≤ e.end_1based →
      e.is_deletion = false → e.delta ≠ 0 →
      map_go pos shift es = .error .VspUnresolvable
  | [], _, e, _, _, he, _, _, _, _ => absurd he (by simp)
  | x :: es, shift, e, hwf, hp, he, hb, hend, hdel, hdelta => by
    rcases List.mem_cons.mp he with rfl | he'
    · unfold map_go
      rw [if_neg (by omega), if_neg (by omega), if_neg (by simp [hdel]),
        if_neg hdelta, if_neg (by omega)]
    · have hxe : x.end_1based < e.begin_1based :=
        (List.pairwise_cons.mp hp).1 e he'
      unfold map_go
      rw [if_neg (by have := hwf x (by simp); omega), if_pos (by omega)]
      exact map_go_interior_unresolvable pos es (shift + x.delta) e
        (fun y hy => hwf y (by simp [hy])) (List.pairwise_cons.mp hp).2
        he' hb hend hdel hdelta

/-- Counterexample entry for C2: two overlapping `variant sequence` edits,
a pure substitution over 1..10 and a shortening indel over 2..5. -/
def overlap_entry : ParsedEntry :=
  { sequence := "ABCDEFGHIJKLMNOPQRSTUVWXYZ",
    features :=
      [{ id := some "VSP_A", feature_type := "variant sequence", start := some 1,
         end_ := some 10, variation := some "AAAAAAAAAA" },
       { id := some "VSP_B", feature_type := "variant sequence", start := some 2,
         end_ := some 5, variation := some "A" }] }

/-- C2 (counterexample) — position 3 lies strictly inside the span of the
non-deletion edit (2, 5, −3) of this constructed mapper, yet
`map_point_1based` returns `Ok 3` (the earlier overlapping substitution edit
captures the position first), not `VspUnresolvable`. -/
theorem interior_position_counterexample :
    (⟨2, 5, -3, false⟩ : VspEdit) ∈
        (from_entry_for_vsp_ids overlap_entry ["VSP_A", "VSP_B"]).edits ∧
    (⟨2, 5, -3, false⟩ : VspEdit).begin_1based < 3 ∧
    (3 : Int) ≤ (⟨2, 5, -3, false⟩ : VspEdit).end_1based ∧
    (⟨2, 5, -3, false⟩ : VspEdit).is_deletion = false ∧
    (⟨2, 5, -3, false⟩ : VspEdit).delta ≠ 0 ∧
    map_point_1based (from_entry_for_vsp_ids overlap_entry ["VSP_A", "VSP_B"]) 3
      = .ok 3 := by
  decide

/-- C2 (amended) — for every mapper whose edits have well-formed spans
(`begin ≤ end`) that are pairwise disjoint — as the spans of real VSP sets
are — every position strictly inside the span of a non-deletion edit with
non-zero delta fails with `VspUnresolvable`; it is never snapped to the
span's start. Non-positive positions also return `VspUnresolvable`. -/
theorem map_point_interior_unresolvable (m : CoordinateMapper) (pos : Int) (e : VspEdit)
    (hwf : ∀ x ∈ m.edits, x.begin_1based ≤ x.end_1based)
    (hdisj : m.edits.Pairwise (fun a b => a.end_1based < b.begin_1based))
    (he : e ∈ m.edits) (hb : e.begin_1based < pos) (hend : pos ≤ e.end_1based)
    (hdel : e.is_deletion = false) (hdelta : e.delta ≠ 0) :
    map_point_1based m pos = .error .VspUnresolvable := by
  unfold map_point_1based
  split
  · rfl
  · exact map_go_interior_unresolvable pos m.edits 0 e hwf hdisj he hb hend hdel hdelta

/-- Non-overlapping shortening indel (5, 7, −2) from the repository's own
mapper test, used to witness the amended C2. -/
def indel_entry : ParsedEntry :=
  { sequence := "ABCDEFGHIJKLMNOPQRSTUVWXYZ",
    features :=
      [{ id := some "VSP_TEST", feature_type := "variant sequence", start := some 5,
         end_ := some 7, variation := some "E" }] }

/-- Witness for the amended C2: interior position 6 of the indel (5, 7, −2)
is rejected as `VspUnresolvable`. -/
theorem map_point_interior_unresolvable_witness :
    map_point_1based (from_entry_for_vsp_ids indel_entry ["VSP_TEST"]) 6
      = .error .VspUnresolvable :=
  map_point_interior_unresolvable (from_entry_for_vsp_ids indel_entry ["VSP_TEST"]) 6
    ⟨5, 7, -2, false⟩ (by decide) (by decide) (by decide) (by decide) (by decide)
    (by decide) (by decide)

/-- The combined shift a position receives: the sum of the deltas of exactly
those edits whose span ends strictly before it. -/
def prior_delta_sum (es : List VspEdit) (pos : Int) : Int :=
  ((es.filter (fun x => x.end_1based < pos)).map VspEdit.delta).sum

theorem prior_delta_sum_nil (pos : Int) : prior_delta_sum [] pos = 0 := rfl

theorem prior_delta_sum_cons_pos (x : VspEdit) (es : List VspEdit) (pos : Int)
    (h : x.end_1based < pos) :
    prior_delta_sum (x :: es) pos = x.delta + prior_delta_sum es pos := by
  simp [prior_delta_sum, List.filter_cons, h]

theorem prior_delta_sum_cons_neg (x : VspEdit) (es : List VspEdit) (pos : Int)
    (h : ¬ x.end_1based < pos) :
    prior_delta_sum (x :: es) pos = prior_delta_sum es pos := by
  simp [prior_delta_sum, List.filter_cons, h]

theorem prior_delta_sum_zero (pos : Int) :
    ∀ es : List VspEdit, (∀ x ∈ es, ¬ x.end_1based < pos) →
      prior_delta_sum es pos = 0
  | [], _ => rfl
  | x :: es, h => by
    rw [prior_delta_sum_cons_neg x es pos (h x (by simp))]
    exact prior_delta_sum_zero pos es (fun y hy => h y (by simp [hy]))

theorem map_go_outside_spans (pos : Int) :
    ∀ (es : List VspEdit) (shift : Int),
      (∀ x ∈ es, x.begin_1based ≤ x.end_1based) →
      es.Pairwise (fun a b => a.end_1based < b.begin_1based) →
      (∀ x ∈ es, pos < x.begin_1based ∨ x.end_1based < pos) →
      map_go pos shift es = finish_map pos (shift + prior_delta_sum es pos)
  | [], shift, _, _, _ => by rw [prior_delta_sum_nil, add_zero]; rfl
  | x :: es, shift, hwf, hp, hout => by
    rcases hout x (by simp) with hlt | hgt
    · unfold map_go
      rw [if_pos (by omega)]
      have hzero : prior_delta_sum (x :: es) pos = 0 := by
        refine prior_delta_sum_zero pos (x :: es) (fun y hy => ?_)
        rcases List.mem_cons.mp hy with rfl | hy'
        · have := hwf y (by simp)
          omega
        · have h1 := (List.pairwise_cons.mp hp).1 y hy'
          have h2 := hwf x (by simp)
          have h3 := hwf y (by simp [hy'])
          omega
      rw [hzero, add_zero]
    · unfold map_go
      rw [if_neg (by have := hwf x (by simp); omega), if_pos (by omega)]
      rw [map_go_outside_spans pos es (shift + x.delta)
        (fun y hy => hwf y (by simp [hy])) (List.pairwise_cons.mp hp).2
        (fun y hy => hout y (by simp [hy]))]
      rw [prior_delta_sum_cons_pos x es pos hgt, add_assoc]

theorem prior_delta_sum_ge (pos : Int) :
    ∀ (es : List VspEdit) (lo : Int),
      (∀ x ∈ es, 1 ≤ x.begin_1based ∧ x.begin_1based ≤ x.end_1based ∧
        -(x.end_1based - x.begin_1based + 1) ≤ x.delta) →
      es.Pairwise (fun a b => a.end_1based < b.begin_1based) →
      (∀ x ∈ es, lo ≤ x.begin_1based) →
      lo ≤ pos →
      lo - pos ≤ prior_delta_sum es pos
  | [], lo, _, _, _, hlp => by rw [prior_delta_sum_nil]; omega
  | x :: es, lo, hb, hp, hlo, hlp => by
    by_cases hx : x.end_1based < pos
    · rw [prior_delta_sum_cons_pos x es pos hx]
      have htail := prior_delta_sum_ge pos es (x.end_1based + 1)
        (fun y hy => hb y (by simp [hy])) (List.pairwise_cons.mp hp).2
        (fun y hy => by have := (List.pairwise_cons.mp hp).1 y hy; omega)
        (by omega)
      have hxb := hb x (by simp)
      have hxlo := hlo x (by simp)
      omega
    · rw [prior_delta_sum_cons_neg x es pos hx]
      have htail := prior_delta_sum_ge pos es pos
        (fun y hy => hb y (by simp [hy])) (List.pairwise_cons.mp hp).2
        (fun y hy => by
          have h1 := (List.pairwise_cons.mp hp).1 y hy
          omega)
        (le_refl pos)
      omega

/-- C3 (amended) — for every mapper built by `from_entry_for_vsp_ids` whose
edit spans are pairwise disjoint (as the VSP spans of one isoform are) and
every 1-based position outside every edited span, `map_point_1based` succeeds
and returns the position plus the sum of the deltas of exactly those edits
whose end lies strictly before it. -/
theorem map_point_outside_spans (scratch : ParsedEntry) (vsp_ids : List String)
    (pos : Int) (hpos : 1 ≤ pos)
    (hdisj : (from_entry_for_vsp_ids scratch vsp_ids).edits.Pairwise
      (fun a b => a.end_1based < b.begin_1based))
    (hout : ∀ x ∈ (from_entry_for_vsp_ids scratch vsp_ids).edits,
      pos < x.begin_1based ∨ x.end_1based < pos) :
    map_point_1based (from_entry_for_vsp_ids scratch vsp_ids) pos
      = .ok (pos + prior_delta_sum (from_entry_for_vsp_ids scratch vsp_ids).edits pos) := by
  have hbounds := from_entry_edits_bounds scratch vsp_ids
  unfold map_point_1based
  rw [if_neg (by omega)]
  rw [map_go_outside_spans pos (from_entry_for_vsp_ids scratch vsp_ids).edits 0
    (fun x hx => (hbounds x hx).2.1) hdisj hout]
  have hsum := prior_delta_sum_ge pos (from_entry_for_vsp_ids scratch vsp_ids).edits 1
    hbounds hdisj (fun x hx => (hbounds x hx).1) hpos
  simp only [finish_map, zero_add]
  rw [if_neg (by omega)]

/-- Deletion edit (5, 7, Missing) from the repository's own mapper test,
used to witness the amended C3: downstream positions shift by the delta. -/
def deletion_entry : ParsedEntry :=
  { sequence := "ABCDEFGHIJKLMNOPQRSTUVWXYZ",
    features :=
      [{ id := some "VSP_TEST", feature_type := "variant sequence", start := some 5,
         end_ := some 7, original := some "EFG", variation := some "Missing" }] }

/-- Witness for the amended C3: position 10 lies outside the deleted span
(5, 7, −3), maps to 10 plus the prior-delta sum, and that value is 7. -/
theorem map_point_outside_spans_witness :
    map_point_1based (from_entry_for_vsp_ids deletion_entry ["VSP_TEST"]) 10
      = .ok (10 + prior_delta_sum
          (from_entry_for_vsp_ids deletion_entry ["VSP_TEST"]).edits 10) ∧
    map_point_1based (from_entry_for_vsp_ids deletion_entry ["VSP_TEST"]) 10 = .ok 7 :=
  ⟨map_point_outside_spans deletion_entry ["VSP_TEST"] 10 (by decide) (by decide)
    (by decide), by decide⟩

/-- Counterexample entry for C3: two duplicated (overlapping) full-deletion
splice variants over 1..5, both scoped to the same isoform. -/
def dup_deletion_entry : ParsedEntry :=
  { sequence := "ABCDEFGHIJ",
    features :=
      [{ id := some "VSP_A", feature_type := "splice variant", start := some 1,
         end_ := some 5 },
       { id := some "VSP_B", feature_type := "splice variant", start := some 1,
         end_ := some 5 }] }

/-- C3 (counterexample) — position 6 lies outside every edited span of this
constructed mapper, yet `map_point_1based` does not succeed: the accumulated
shift of the two overlapping deletions drives the result to −4, which fails
with `PtmOutOfBounds` instead of returning `6 + Σ deltas`. -/
theorem map_point_outside_spans_counterexample :
    (∀ x ∈ (from_entry_for_vsp_ids dup_deletion_entry ["VSP_A", "VSP_B"]).edits,
      (6 : Int) < x.begin_1based ∨ x.end_1based < 6) ∧
    map_point_1based (from_entry_for_vsp_ids dup_deletion_entry ["VSP_A", "VSP_B"]) 6
      = .error .PtmOutOfBounds := by
  decide

theorem transform_isoforms_eq (entry : ParsedEntry) (sidecar : List (String × String)) :
    ∀ isos : List IsoformScratch,
      transform_isoforms entry sidecar isos
        = (isos.filterMap (resolved_row entry sidecar),
           isos.filterMap (missing_diag entry sidecar))
  | [] => rfl
  | iso :: rest => by
    unfold transform_isoforms
    rw [transform_isoforms_eq entry sidecar rest]
    cases h : sidecar.lookup (canonical_isoform_id iso) <;>
      simp [resolved_row, missing_diag, h, List.filterMap_cons]

theorem length_filterMap_eq_countP {α β : Type} (f : α → Option β) :
    ∀ l : List α, (l.filterMap f).length = l.countP (fun a => (f a).isSome)
  | [] => rfl
  | a :: l => by
    rw [List.filterMap_cons, List.countP_cons]
    cases h : f a <;>
      simp [h, length_filterMap_eq_countP f l]

/-- The entry of spec scenario 5 shape with a resolvable isoform, used for
the C1 counterexample and witness. -/
def iso_entry : ParsedEntry :=
  { accession := "Q9TEST", parent_id := "Q9TEST", sequence := "MTAK",
    isoforms := [{ isoform_id := "ISO1", isoform_sequence := some "Q9TEST-1" }] }

/-- The sidecar resolving `iso_entry`'s lone isoform. -/
def iso_sidecar : List (String × String) := [("Q9TEST-1", "MTAK")]

/-- C1 (counterexample) — an entry with one isoform whose sequence resolves
from the sidecar emits exactly one row (the isoform row), not
`1 + |isoforms_resolved| = 2`, and no emitted row is a canonical row
(`row_id == parent_id`). -/
theorem rows_per_entry_counterexample :
    (transform_rows (transform (some iso_sidecar) iso_entry)).length = 1 ∧
    iso_entry.isoforms.countP
        (fun iso => (iso_sidecar.lookup (canonical_isoform_id iso)).isSome) = 1 ∧
    (transform_rows (transform (some iso_sidecar) iso_entry)).length
      ≠ 1 + iso_entry.isoforms.countP
          (fun iso => (iso_sidecar.lookup (canonical_isoform_id iso)).isSome) ∧
    (transform_rows (transform (some iso_sidecar) iso_entry)).all
        (fun r => r.row_id ≠ r.parent_id) = true := by
  decide

/-- C1 (amended) — an entry without isoforms emits exactly the canonical row
(`row_id = parent_id = accession`, canonical sequence, identity mapper); an
entry with isoforms emits exactly the rows of its sidecar-resolved isoforms,
in parsed order — the canonical row is not among them, and an entry whose
isoforms are all unresolvable emits zero rows. -/
theorem rows_per_entry (entry : ParsedEntry) (sidecar : List (String × String)) :
    (entry.isoforms = [] →
      transform (some sidecar) entry
        = .ok ([⟨entry.accession, entry.accession, entry.sequence, from_entry entry⟩], [])) ∧
    (entry.isoforms ≠ [] →
      transform_rows (transform (some sidecar) entry)
          = entry.isoforms.filterMap (resolved_row entry sidecar) ∧
        (transform_rows (transform (some sidecar) entry)).length
          = entry.isoforms.countP
              (fun iso => (sidecar.lookup (canonical_isoform_id iso)).isSome)) := by
  constructor
  · intro hnil
    unfold transform
    rw [if_pos hnil]
  · intro hne
    have hrows : transform_rows (transform (some sidecar) entry)
        = entry.isoforms.filterMap (resolved_row entry sidecar) := by
      unfold transform
      rw [if_neg hne]
      show (transform_isoforms entry sidecar entry.isoforms).1 = _
      rw [transform_isoforms_eq]
    refine ⟨hrows, ?_⟩
    rw [hrows, length_filterMap_eq_countP]
    refine List.countP_congr (fun iso _ => ?_)
    unfold resolved_row
    cases sidecar.lookup (canonical_isoform_id iso) <;> simp

/-- Witness for the amended C1 at an entry with one resolved isoform. -/
theorem rows_per_entry_witness :
    transform_rows (transform (some iso_sidecar) iso_entry)
        = iso_entry.isoforms.filterMap (resolved_row iso_entry iso_sidecar) ∧
    (transform_rows (transform (some iso_sidecar) iso_entry)).length
        = iso_entry.isoforms.countP
            (fun iso => (iso_sidecar.lookup (canonical_isoform_id iso)).isSome) :=
  (rows_per_entry iso_entry iso_sidecar).2 (by decide)

/-- C5 — an isoform whose canonical isoform id is absent from the sidecar
contributes exactly one `ISOFORM_SEQ_MISSING` diagnostic carrying parent_id,
entry accession and the isoform id, contributes no row, and does not make the
per-entry step fail: the transform still returns `Ok` and the diagnostics are
exactly one per unresolvable isoform (`filterMap` over the parsed isoforms). -/
theorem isoform_seq_missing_diagnostic (entry : ParsedEntry)
    (sidecar : List (String × String)) (iso : IsoformScratch)
    (hmem : iso ∈ entry.isoforms)
    (hmiss : sidecar.lookup (canonical_isoform_id iso) = none) :
    (transform (some sidecar) entry).isOk = true ∧
    transform_diags (transform (some sidecar) entry)
        = entry.isoforms.filterMap (missing_diag entry sidecar) ∧
    missing_diag entry sidecar iso
        = some ⟨entry.parent_id, entry.accession, canonical_isoform_id iso⟩ ∧
    resolved_row entry sidecar iso = none ∧
    (⟨entry.parent_id, entry.accession, canonical_isoform_id iso⟩ : IsoformSeqMissing)
        ∈ transform_diags (transform (some sidecar) entry) := by
  have hne : entry.isoforms ≠ [] := by
    intro h
    rw [h] at hmem
    exact absurd hmem (by simp)
  have hdiag : missing_diag entry sidecar iso
      = some ⟨entry.parent_id, entry.accession, canonical_isoform_id iso⟩ := by
    unfold missing_diag
    rw [hmiss]
  have hdiags : transform_diags (transform (some sidecar) entry)
      = entry.isoforms.filterMap (missing_diag entry sidecar) := by
    unfold transform
    rw [if_neg hne]
    show (transform_isoforms entry sidecar entry.isoforms).2 = _
    rw [transform_isoforms_eq]
  refine ⟨?_, hdiags, hdiag, ?_, ?_⟩
  · unfold transform
    rw [if_neg hne]
    rfl
  · unfold resolved_row
    rw [hmiss]
    rfl
  · rw [hdiags]
    exact List.mem_filterMap.mpr ⟨iso, hmem, hdiag⟩

/-- The entry of spec scenario 5: an isoform referring to `Q16670-2`, which
the sidecar lacks. -/
def missing_iso_entry : ParsedEntry :=
  { accession := "Q16670", parent_id := "Q16670", sequence := "MTAK",
    isoforms := [{ isoform_id := "ISO1", isoform_sequence := some "Q16670-2" }] }

/-- The sidecar for spec scenario 5, lacking `Q16670-2`. -/
def missing_iso_sidecar : List (String × String) := [("Q16670-3", "MM")]

/-- Witness for C5 on spec scenario 5: the transform succeeds and logs the
`ISOFORM_SEQ_MISSING` diagnostic for `Q16670-2`. -/
theorem isoform_seq_missing_diagnostic_witness :
    (transform (some missing_iso_sidecar) missing_iso_entry).isOk = true ∧
    transform_diags (transform (some missing_iso_sidecar) missing_iso_entry)
        = missing_iso_entry.isoforms.filterMap
            (missing_diag missing_iso_entry missing_iso_sidecar) ∧
    missing_diag missing_iso_entry missing_iso_sidecar
        { isoform_id := "ISO1", isoform_sequence := some "Q16670-2" }
        = some ⟨"Q16670", "Q16670", "Q16670-2"⟩ ∧
    resolved_row missing_iso_entry missing_iso_sidecar
        { isoform_id := "ISO1", isoform_sequence := some "Q16670-2" } = none ∧
    (⟨"Q16670", "Q16670", "Q16670-2"⟩ : IsoformSeqMissing)
        ∈ transform_diags (transform (some missing_iso_sidecar) missing_iso_entry) :=
  isoform_seq_missing_diagnostic missing_iso_entry missing_iso_sidecar
    { isoform_id := "ISO1", isoform_sequence := some "Q16670-2" }
    (by decide) (by decide)

theorem mem_sites_insert (k : Int) (aa : Char) (m : Int × ℚ) :
    ∀ (l : List PtmSite) (s : PtmSite), s ∈ sites_insert k aa m l →
      (s.site_index = k ∧ s.site_aa = aa) ∨
        ∃ t ∈ l, s.site_index = t.site_index ∧ s.site_aa = t.site_aa
  | [], s, h => by
    simp only [sites_insert, List.mem_singleton] at h
    subst h
    exact Or.inl ⟨rfl, rfl⟩
  | x :: l, s, h => by
    unfold sites_insert at h
    split at h
    · rcases List.mem_cons.mp h with rfl | h'
      · exact Or.inl ⟨rfl, rfl⟩
      · rcases List.mem_cons.mp h' with rfl | h'' <;>
          [exact Or.inr ⟨s, by simp, rfl, rfl⟩;
           exact Or.inr ⟨s, by simp [h''], rfl, rfl⟩]
    · split at h
      · rcases List.mem_cons.mp h with rfl | h'
        · exact Or.inr ⟨x, by simp, rfl, rfl⟩
        · exact Or.inr ⟨s, by simp [h'], rfl, rfl⟩
      · rcases List.mem_cons.mp h with rfl | h'
        · exact Or.inr ⟨s, by simp, rfl, rfl⟩
        · rcases mem_sites_insert k aa m l s h' with hnew | ⟨t, ht, hts⟩
          · exact Or.inl hnew
          · exact Or.inr ⟨t, by simp [ht], hts⟩

theorem sites_insert_sorted (k : Int) (aa : Char) (m : Int × ℚ) :
    ∀ l : List PtmSite,
      l.Pairwise (fun a b => a.site_index < b.site_index) →
      (sites_insert k aa m l).Pairwise (fun a b => a.site_index < b.site_index)
  | [], _ => by simp [sites_insert]
  | x :: l, hp => by
    obtain ⟨hx, hl⟩ := List.pairwise_cons.mp hp
    unfold sites_insert
    split
    · refine List.pairwise_cons.mpr ⟨?_, hp⟩
      intro y hy
      rcases List.mem_cons.mp hy with rfl | hy'
      · simpa using by omega
      · have := hx y hy'
        simp only
        omega
    · split
      · exact List.pairwise_cons.mpr ⟨fun y hy => hx y hy, hl⟩
      · refine List.pairwise_cons.mpr ⟨?_, sites_insert_sorted k aa m l hl⟩
        intro y hy
        rcases mem_sites_insert k aa m l y hy with ⟨hyk, _⟩ | ⟨t, ht, hts, _⟩
        · rw [hyk]
          omega
        · rw [hts]
          exact hx t ht

/-- The invariant carried through the fold of `append_ptm_sites`: every
aggregated site indexes a residue of the row's sequence equal to its verified
`site_aa`, and the site list is strictly sorted by mapped position. -/
def SitesInv (row : TransformedRow) (sites : List PtmSite) : Prop :=
  (∀ s ∈ sites, row.sequence.toList.get? (s.site_index.toNat - 1) = some s.site_aa ∧
    1 ≤ s.site_index) ∧
  sites.Pairwise (fun a b => a.site_index < b.site_index)

theorem ptm_step_preserves (entry : ParsedEntry) (row : TransformedRow)
    (feat : FeatureScratch) (sites : List PtmSite) (h : SitesInv row sites) :
    SitesInv row (ptm_step entry row sites feat) := by
  unfold ptm_step
  dsimp only
  repeat' split
  all_goals try exact h
  rename_i hA heqcanon mappedq mapped heqmap hpos xopt hB hget hne
  constructor
  · intro s hs
    rcases mem_sites_insert _ _ _ sites s hs with ⟨hk, haa⟩ | ⟨t, ht, hk, haa⟩
    · rw [hk, haa]
      have hBA : hB = hA := by simpa using hne
      rw [← hBA]
      exact ⟨hget, by omega⟩
    · rw [hk, haa]
      exact h.1 t ht
  · exact sites_insert_sorted _ _ _ sites h.2

theorem foldl_ptm_inv (entry : ParsedEntry) (row : TransformedRow) :
    ∀ (feats : List FeatureScratch) (sites : List PtmSite), SitesInv row sites →
      SitesInv row (feats.foldl (ptm_step entry row) sites)
  | [], _, h => h
  | feat :: feats, sites, h => by
    rw [List.foldl_cons]
    exact foldl_ptm_inv entry row feats (ptm_step entry row sites feat)
      (ptm_step_preserves entry row feat sites h)

/-- C4 — for every row, every PTM site that survives the three-step
verification and is serialized into `ptm_sites` satisfies
`row_sequence[site_index − 1] == site_aa`, and the sites of a row are
serialized in strictly ascending `site_index` order. -/
theorem ptm_sites_verified (entry : ParsedEntry) (row : TransformedRow) :
    (∀ s ∈ ptm_sites_for_row entry row,
      row.sequence.toList.get? (s.site_index.toNat - 1) = some s.site_aa) ∧
    (ptm_sites_for_row entry row).Pairwise (fun a b => a.site_index < b.site_index) := by
  have h := foldl_ptm_inv entry row entry.features [] ⟨by simp, by simp⟩
  exact ⟨fun s hs => (h.1 s hs).1, h.2⟩

/-- The entry of spec scenario 4: canonical `MTAK` with a phosphothreonine
at position 2 backed by experimental evidence. -/
def ptm_entry : ParsedEntry :=
  { accession := "Q9TEST", parent_id := "Q9TEST", sequence := "MTAK",
    evidence_map := [("E1", "ECO:0000269")],
    features :=
      [{ feature_type := "modified residue", description := some "Phosphothreonine",
         start := some 2, end_ := some 2, evidence_keys := ["E1"] }] }

/-- The isoform row `Q9TEST-1` of spec scenario 4, whose sidecar sequence
equals the canonical one. -/
def ptm_row : TransformedRow :=
  ⟨"Q9TEST-1", "Q9TEST", "MTAK", ⟨[]⟩⟩

/-- The aggregated site of spec scenario 4, with its modification entry kept
in unevaluated form (mod type and confidence as the expressions the builder
stores). -/
def ptm_witness_site : PtmSite :=
  ⟨2, 'T', [(classify_mod_type (str_to_lower "modified residue") (some "Phosphothreonine"),
    max_confidence_for_evidence ptm_entry ["E1"])]⟩

/-- Witness for C4 on spec scenario 4: exactly one site is serialized, at
site_index 2 with site_aa 'T', and the residue of `MTAK` at index
`site_index − 1` is that `site_aa`. -/
theorem ptm_sites_verified_witness :
    (ptm_sites_for_row ptm_entry ptm_row).map (fun s => (s.site_index, s.site_aa))
        = [(2, 'T')] ∧
    ptm_row.sequence.toList.get? (ptm_witness_site.site_index.toNat - 1)
        = some ptm_witness_site.site_aa :=
  ⟨by decide,
   (ptm_sites_verified ptm_entry ptm_row).1 ptm_witness_site
     (by
       rw [show ptm_sites_for_row ptm_entry ptm_row = [ptm_witness_site] from rfl]
       exact List.mem_singleton.mpr rfl)⟩

end UniprotEtl
